import Mathlib

/-!
Verification of the push-based reactivity core of the toolish library
(src/reactivity.ts, src/reactivity/{value,derivative,cache,array,consumer}.ts,
src/reactivity container/object modules, and the index-normalization helpers).

The TypeScript classes are embedded shallowly: each mutable object becomes an
explicit state record, each method a state-passing function, and JavaScript
`Set` fields become `Finset Nat` (membership-based, duplicate-free, exactly the
observable behaviour of `Set.add`/`delete`/`has`/iteration for the effects
proved here).  Node identity is modelled with numeric ids into an explicit
arena, since structural values in Lean have no reference identity.
-/

namespace Toolish

/-! ## Leaf value node (reactivity/value.ts `ReactiveValue`)

A leaf node together with the values delivered to a subscribed consumer.
`ReactiveConsumer.update` (reactivity/consumer.ts) calls
`this.consumer(this.base.unwrap())`, so each `updateSubscribers()` on the leaf
delivers the current (just assigned) value; we log those deliveries in
`notifications`. -/

structure VState (T : Type) where
  value : T
  notifications : List T
deriving DecidableEq, Repr

/-- `ReactiveValue.set` (reactivity/value.ts lines 43-47):
`if (value === this.value) return; this.value = value; this.updateSubscribers();`
JavaScript strict equality on the stored value is modelled by decidable
equality on `T`. -/
def vset {T : Type} [DecidableEq T] (s : VState T) (v : T) : VState T :=
  if v = s.value then s
  else { value := v, notifications := s.notifications ++ [v] }

/-! ## Publisher notification snapshot (reactivity.ts `Reactive.updateSubscribers`)

```
updateSubscribers(): void {
  // iterate over a copy because the subscriber set may get modified ...
  const initial = [...this.subscribers];
  initial.forEach(u => u.update());
}
```
`subscribers` is the insertion-ordered contents of the JS `Set`; `notified`
logs every `update()` delivery.  Each subscriber's `update()` may arbitrarily
mutate the subscriber set; that side effect is the parameter `eff` (given the
subscriber being notified and the current set, it returns the mutated set). -/

structure PubState where
  subscribers : List Nat
  notified : List Nat
deriving DecidableEq, Repr

/-- One step of the `initial.forEach(u => u.update())` loop: deliver `update()`
to subscriber `s` (logged in `notified`) whose side effect `eff s` may mutate
the live subscriber set. -/
def notifyStep (eff : Nat → List Nat → List Nat) (acc : PubState) (s : Nat) : PubState :=
  { subscribers := eff s acc.subscribers, notified := acc.notified ++ [s] }

/-- `Reactive.updateSubscribers` (reactivity.ts lines 949-953): snapshot the
subscriber set into `initial`, then notify each element of the snapshot. -/
def updateSubscribersFn (eff : Nat → List Nat → List Nat) (st : PubState) : PubState :=
  let initial := st.subscribers
  initial.foldl (notifyStep eff) st

/-! ## Index normalization helpers (src/array module)

Sources of `mirrorIndex`, `normalizeRangeStart`, `normalizeRangeEnd`,
`normalizeRangeLength`.  JavaScript numbers used as indices are modelled as
`Int`. -/

/-- `mirrorIndex(index, limit)`: `if (index < 0) index += limit; return index;` -/
def mirrorIndex (index limit : Int) : Int :=
  if index < 0 then index + limit else index

/-- `normalizeRangeStart(limit, start = 0)`:
`Math.min(Math.max(0, mirrorIndex(start, limit)), limit)` -/
def normalizeRangeStart (limit start : Int) : Int :=
  min (max 0 (mirrorIndex start limit)) limit

/-- `normalizeRangeEnd(limit, end = limit, start = 0)`:
`Math.max(mirrorIndex(end, limit), mirrorIndex(start, limit))` -/
def normalizeRangeEnd (limit endIdx start : Int) : Int :=
  max (mirrorIndex endIdx limit) (mirrorIndex start limit)

/-- `normalizeRangeLength(limit, length, start = 0)`:
`start = normalizeRangeStart(limit, start); return normalizeRangeEnd(limit, start + length) - start;`
(the inner `normalizeRangeEnd` call leaves its own `start` parameter at its
default `0`). -/
def normalizeRangeLength (limit length start : Int) : Int :=
  let start2 := normalizeRangeStart limit start
  normalizeRangeEnd limit (start2 + length) 0 - start2

/-! ## Container nodes (reactivity container module, reactivity/array.ts, object module)

Components of a container are either promoted reactive child nodes or raw
values.  Child nodes are `ReactiveValue` leaves held in an explicit arena
`CWorld` (node identity = arena index).  A leaf's `notifyCount` counts its
`updateSubscribers()` calls, i.e. the updates a derivative subscribed only to
that child would receive.  The component factory (`wrapComponent` composed
with `convertPatchSource`, or `wrapElement` in the array) is modelled as
allocation of a fresh leaf wrapping the given raw value.  The JS `undefined`
value is modelled as `default : V`. -/

structure LeafNode (V : Type) where
  value : V
  notifyCount : Nat
deriving DecidableEq, Repr

structure CWorld (V : Type) where
  leaves : List (LeafNode V)
deriving DecidableEq, Repr

/-- A component slot of a container: a promoted reactive child node (by arena
id) or a plain raw value. -/
inductive Comp (V : Type) where
  | node (id : Nat)
  | raw (v : V)
deriving DecidableEq, Repr

/-- `ReactiveValue.set` applied to the child leaf `id` of the arena: no-op if
the new value is strictly equal, otherwise assign and notify that leaf's
subscribers once. -/
def leafSet {V : Type} [DecidableEq V] (w : CWorld V) (id : Nat) (v : V) : CWorld V :=
  match w.leaves[id]? with
  | none => w
  | some leaf =>
    if v = leaf.value then w
    else { leaves := w.leaves.set id { value := v, notifyCount := leaf.notifyCount + 1 } }

/-- `ReactiveValue.patch` on a leaf child: the base implementation delegates to
`set` (after unwrapping the patch source, which for plain data is the
identity). -/
def leafPatch {V : Type} [DecidableEq V] (w : CWorld V) (id : Nat) (v : V) : CWorld V :=
  leafSet w id v

/-- Allocate a fresh leaf node wrapping raw value `v` (the component factory
path `this.wrapComponent(this.convertPatchSource(value, key))`). -/
def allocLeaf {V : Type} (w : CWorld V) (v : V) : CWorld V × Nat :=
  ({ leaves := w.leaves ++ [{ value := v, notifyCount := 0 }] }, w.leaves.length)

/-! ### Array variant (reactivity/array.ts `ReactiveArray`) -/

structure ArrState (V : Type) where
  comps : List (Comp V)
  dirty : Bool
  notifyCount : Nat
deriving DecidableEq, Repr

/-- JavaScript array element assignment `this.value[i] = c`: in-range indices
are overwritten; an index at or beyond the length extends the array, filling
any holes with `undefined` (`Comp.raw default`). -/
def assignSlot {V : Type} [Inhabited V] (comps : List (Comp V)) (i : Nat) (c : Comp V) :
    List (Comp V) :=
  if i < comps.length then comps.set i c
  else comps ++ List.replicate (i - comps.length) (Comp.raw default) ++ [c]

/-- `ReactiveContainer.patchComponent` specialized to the array container:
if the existing component is a reactive node, route the update through that
node's `patch`; otherwise assign a freshly wrapped component and mark dirty. -/
def patchComponentA {V : Type} [DecidableEq V] [Inhabited V]
    (w : CWorld V) (a : ArrState V) (i : Nat) (v : V) : CWorld V × ArrState V :=
  match a.comps[i]? with
  | some (Comp.node id) => (leafPatch w id v, a)
  | _ =>
    let (w2, id) := allocLeaf w v
    (w2, { a with comps := assignSlot a.comps i (Comp.node id), dirty := true })

/-- `ReactiveContainer.setComponent` specialized to the array container:
like `patchComponent`, but an existing reactive child receives `set` instead
of `patch` (identical on leaf children). -/
def setComponentA {V : Type} [DecidableEq V] [Inhabited V]
    (w : CWorld V) (a : ArrState V) (i : Nat) (v : V) : CWorld V × ArrState V :=
  match a.comps[i]? with
  | some (Comp.node id) => (leafSet w id v, a)
  | _ =>
    let (w2, id) := allocLeaf w v
    (w2, { a with comps := assignSlot a.comps i (Comp.node id), dirty := true })

/-- `ReactiveContainer.commit`: if dirty, `updateSubscribers()` once and clear
the flag. -/
def commitA {V : Type} (a : ArrState V) : ArrState V :=
  if a.dirty then { a with dirty := false, notifyCount := a.notifyCount + 1 } else a

/-- Native `Array.prototype.splice` on the component list, for a non-negative
start position as produced inside `ReactiveArray`: the start is clamped to the
length and the delete count is clamped into `[0, length - start]` (ECMAScript
semantics). -/
def natSplice {V : Type} (comps : List (Comp V)) (start : Nat) (deleteCount : Int)
    (items : List (Comp V)) : List (Comp V) :=
  let s := min start comps.length
  let dc := (min (max deleteCount 0) ((comps.length : Int) - (s : Int))).toNat
  comps.take s ++ items ++ comps.drop (s + dc)

/-- `ReactiveArray.doSplice`: if there is anything to remove or insert, splice
the native array, wrapping each inserted value through the element factory
(fresh leaves), and mark dirty. -/
def doSpliceA {V : Type} [Inhabited V] (w : CWorld V) (a : ArrState V)
    (index : Nat) (removeCount : Int) (insertValues : List V) : CWorld V × ArrState V :=
  if removeCount > 0 ∨ insertValues.length > 0 then
    let fresh := (List.range insertValues.length).map
      (fun i => Comp.node (w.leaves.length + i))
    ({ leaves := w.leaves ++ insertValues.map (fun v => { value := v, notifyCount := 0 }) },
     { a with comps := natSplice a.comps index removeCount fresh, dirty := true })
  else (w, a)

/-- The `toReplace.forEach(v => this.patchComponent(index++, v))` loop of
`ReactiveArray.splice`: patch components in place at consecutive indices. -/
def patchRunA {V : Type} [DecidableEq V] [Inhabited V] :
    CWorld V → ArrState V → Nat → List V → CWorld V × ArrState V
  | w, a, _, [] => (w, a)
  | w, a, i, v :: rest =>
    let p := patchComponentA w a i v
    patchRunA p.1 p.2 (i + 1) rest

/-- `ReactiveArray.splice(index, removeCount = 0, insertValues?)`
(reactivity/array.ts lines 150-166).  The normalized start is non-negative
(it lies in `[0, length]`), so its `toNat` conversion is exact.  `toInsert.splice(0, removeCount)`
is the clamped prefix extraction on the insert list. -/
def spliceA {V : Type} [DecidableEq V] [Inhabited V] (w : CWorld V) (a : ArrState V)
    (index removeCount : Int) (insertValues : List V) : CWorld V × ArrState V :=
  let limit : Int := a.comps.length
  let index1 := normalizeRangeStart limit index
  let rc1 := normalizeRangeLength limit removeCount index1
  let toReplace := insertValues.take rc1.toNat
  let toInsert := insertValues.drop rc1.toNat
  let rc2 := rc1 - toReplace.length
  let p1 := patchRunA w a index1.toNat toReplace
  let p2 := doSpliceA p1.1 p1.2 (index1.toNat + toReplace.length) rc2 toInsert
  (p2.1, commitA p2.2)

/-- `ReactiveArray.removeAt(index, count = 1)` delegates to
`splice(index, count)` (no insert values). -/
def removeAtA {V : Type} [DecidableEq V] [Inhabited V] (w : CWorld V) (a : ArrState V)
    (index : Int) (count : Int) : CWorld V × ArrState V :=
  spliceA w a index count []

/-- The `for (let i = start; i < end; i++) this.setComponent(i, value)` loop of
`ReactiveArray.fill`, with `count` remaining iterations. -/
def setRunA {V : Type} [DecidableEq V] [Inhabited V] :
    CWorld V → ArrState V → Nat → Nat → V → CWorld V × ArrState V
  | w, a, _, 0, _ => (w, a)
  | w, a, i, count + 1, v =>
    let p := setComponentA w a i v
    setRunA p.1 p.2 (i + 1) count v

/-- `ReactiveArray.fill(value, start?, end?)` (reactivity/array.ts lines
178-187): normalize the range, set each component in `[start, end)`, commit. -/
def fillA {V : Type} [DecidableEq V] [Inhabited V] (w : CWorld V) (a : ArrState V)
    (v : V) (start endIdx : Int) : CWorld V × ArrState V :=
  let limit : Int := a.comps.length
  let s := normalizeRangeStart limit start
  let e := normalizeRangeEnd limit endIdx s
  let p := setRunA w a s.toNat (e - s).toNat v
  (p.1, commitA p.2)

/-! ### Object variant (`ReactiveObject`)

Property maps are insertion-ordered association lists over `String` keys,
matching JavaScript object key order for string keys. -/

structure ObjState (V : Type) where
  comps : List (String × Comp V)
  dirty : Bool
  notifyCount : Nat
deriving DecidableEq, Repr

/-- Read the component at property `key` (`this.value[key]`). -/
def lookupComp {V : Type} (comps : List (String × Comp V)) (key : String) : Option (Comp V) :=
  (comps.find? (fun p => p.1 = key)).map Prod.snd

/-- JavaScript property assignment `this.value[key] = c`: update in place
(preserving key order) if present, otherwise append the new property. -/
def setCompO {V : Type} (comps : List (String × Comp V)) (key : String) (c : Comp V) :
    List (String × Comp V) :=
  if comps.any (fun p => p.1 = key) then
    comps.map (fun p => if p.1 = key then (p.1, c) else p)
  else comps ++ [(key, c)]

/-- `ReactiveContainer.patchComponent` specialized to the object container. -/
def patchComponentO {V : Type} [DecidableEq V]
    (w : CWorld V) (a : ObjState V) (key : String) (v : V) : CWorld V × ObjState V :=
  match lookupComp a.comps key with
  | some (Comp.node id) => (leafPatch w id v, a)
  | _ =>
    let (w2, id) := allocLeaf w v
    (w2, { a with comps := setCompO a.comps key (Comp.node id), dirty := true })

/-- `ReactiveObject.doRemove`: if the key is present, apply the default
`REMOVAL_STRATEGY` (`o[k] = undefined`, with `undefined` modelled as
`default : V`) and mark dirty. -/
def doRemoveO {V : Type} [Inhabited V] (a : ObjState V) (key : String) : ObjState V :=
  if a.comps.any (fun p => p.1 = key) then
    { a with comps := setCompO a.comps key (Comp.raw default), dirty := true }
  else a

/-- `ReactiveContainer.commit` for the object container. -/
def commitO {V : Type} (a : ObjState V) : ObjState V :=
  if a.dirty then { a with dirty := false, notifyCount := a.notifyCount + 1 } else a

/-- `source[k]` lookup on the patch source object. -/
def lookupSrc {V : Type} (source : List (String × V)) (key : String) : Option V :=
  (source.find? (fun p => p.1 = key)).map Prod.snd

/-- One step of the `allKeys.forEach(k => k in source ? this.patchComponent(k, source[k]) : this.doRemove(k))`
loop of `ReactiveObject.patch`. -/
def patchStepO {V : Type} [DecidableEq V] [Inhabited V] (source : List (String × V))
    (acc : CWorld V × ObjState V) (k : String) : CWorld V × ObjState V :=
  match lookupSrc source k with
  | some v => patchComponentO acc.1 acc.2 k v
  | none => (acc.1, doRemoveO acc.2 k)

/-- `Object.keys({...this.value, ...source})`: the container's own keys in
order followed by the source's new keys in order (exact for duplicate-free
key lists). -/
def patchKeysO {V : Type} (a : ObjState V) (source : List (String × V)) : List String :=
  let valueKeys := a.comps.map Prod.fst
  valueKeys ++ (source.map Prod.fst).filter (fun k => ¬ valueKeys.contains k)

/-- `ReactiveObject.patch(source)`: iterate over
`Object.keys({...this.value, ...source})`, patching present keys and removing
absent ones, then commit. -/
def patchO {V : Type} [DecidableEq V] [Inhabited V] (w : CWorld V) (a : ObjState V)
    (source : List (String × V)) : CWorld V × ObjState V :=
  let p := (patchKeysO a source).foldl (patchStepO source) (w, a)
  (p.1, commitO p.2)

/-- `ReactiveObject.assign(key, value)` (equivalently the older
`setProperty`): patch or create the single component, then commit. -/
def assignO {V : Type} [DecidableEq V] (w : CWorld V) (a : ObjState V)
    (key : String) (v : V) : CWorld V × ObjState V :=
  let p := patchComponentO w a key v
  (p.1, commitO p.2)

/-! ## Derivative node (reactivity/derivative.ts `ReactiveDerivative`)

The derivative's interaction with its upstream publishers and downstream
subscribers.  Publishers are identified by `Nat`; `pubSubs p` records whether
the derivative is currently a member of publisher `p`'s subscriber set (the
effect of `publisher.subscribe(this)` / `unsubscribe(this)`).  `dsubs` is the
derivative's own subscriber set, `subscriptions` its upstream subscription
set, `evalCount` the number of invocations of the derivation function, and
`downNotify` the number of `updateSubscribers()` calls it made downstream.
The user-supplied derivation function is an abstract
`f : (Nat → E) → T × Finset Nat`: from the current publisher environment it
produces the computed value and the set of publishers tracked through
`subscribeTo` during that evaluation. -/

structure DState (T : Type) where
  valid : Bool
  value : Option T
  subscriptions : Finset Nat
  pubSubs : Nat → Bool
  dsubs : Finset Nat
  evalCount : Nat
  downNotify : Nat

/-- `ReactiveDerivative.unwrap` (reactivity/derivative.ts lines 34-42): if
valid, return the memoized value (`this.value!`); otherwise snapshot and clear
the subscription set, invoke the derivation with `this` as tracker (each
tracked read runs `subscribeTo`: the publisher subscribes the derivative and
is added to `subscriptions`), unsubscribe every previously-subscribed
publisher not re-tracked this round, memoize and mark valid. -/
def unwrapD {E T : Type} [Inhabited T] (f : (Nat → E) → T × Finset Nat)
    (env : Nat → E) (st : DState T) : T × DState T :=
  if st.valid then (st.value.getD default, st)
  else
    let old := st.subscriptions
    let v := (f env).1
    let reads := (f env).2
    let st1 : DState T := { st with
      subscriptions := reads,
      pubSubs := fun p => st.pubSubs p || decide (p ∈ reads),
      evalCount := st.evalCount + 1 }
    let st2 : DState T := { st1 with
      pubSubs := fun p => if p ∈ old ∧ p ∉ reads then false else st1.pubSubs p }
    (v, { st2 with valid := true, value := some v })

/-- `ReactiveDerivative.update`: invalidate the memoized value and propagate
the notification downstream. -/
def updateD {T : Type} (st : DState T) : DState T :=
  { st with valid := false, downNotify := st.downNotify + 1 }

/-- A value change on publisher `p`: its `updateSubscribers()` delivers
`update()` to the derivative exactly when the derivative is in `p`'s
subscriber set. -/
def pubChanged {T : Type} (p : Nat) (st : DState T) : DState T :=
  if st.pubSubs p then updateD st else st

/-- `ReactiveDerivative.free`: drop validity and the memoized value,
unsubscribe from every upstream publisher, and clear the subscription set. -/
def freeD {T : Type} (st : DState T) : DState T :=
  { st with
    valid := false,
    value := none,
    pubSubs := fun p => if p ∈ st.subscriptions then false else st.pubSubs p,
    subscriptions := ∅ }

/-- `ReactiveDerivative.unsubscribe(subscriber)`: remove the subscriber from
the derivative's own subscriber set, then auto-free if none remain
(`if (!this.hasSubscribers()) this.free()`). -/
def unsubscribeD {T : Type} (s : Nat) (st : DState T) : DState T :=
  let st1 : DState T := { st with dsubs := st.dsubs.erase s }
  if st1.dsubs = ∅ then freeD st1 else st1

/-- `n` consecutive `unwrap()` calls. -/
def unwrapIter {E T : Type} [Inhabited T] (f : (Nat → E) → T × Finset Nat)
    (env : Nat → E) : Nat → DState T → DState T
  | 0, st => st
  | n + 1, st => unwrapIter f env n (unwrapD f env st).2

/-! ## Identity cache (reactivity/cache.ts `WeakReactiveCache`, base module `Reactive.of`)

Raw JavaScript values are either primitives (`isObject` false — rejected by
`supports`) or object references.  Object identity is modelled by an abstract
reference type `O`; the current deeply-unwrapped structural content of an
object is given by an environment `env : O → C`, and `areEqual` (deep
structural equality, src/general module) is modelled by decidable equality on
the content type `C`.  Created nodes live in an arena (`nodes`, content
snapshot at creation; node id = index), and the `WeakMap` is an association
list keyed by object reference. -/

inductive Raw (C O : Type) where
  | prim (c : C)
  | objRef (o : O)

structure OfWorld (C O : Type) where
  nodes : List C
  cacheMap : List (O × Nat)

/-- The deeply-unwrapped content of the node `n` (`reactive.unnest(NO_TRACK)`). -/
def nodeContent {C O : Type} [Inhabited C] (w : OfWorld C O) (n : Nat) : C :=
  w.nodes.getD n default

/-- The current structural content of a raw value: a primitive is its own
content; an object's content is read from the environment. -/
def rawContent {C O : Type} (env : O → C) : Raw C O → C
  | Raw.prim c => c
  | Raw.objRef o => env o

/-- `WeakReactiveCache.get(raw)` (reactivity/cache.ts lines 23-29): primitives
are unsupported (`supports` false) and always miss; for an object key with a
cached node, revalidate by deep-comparing the raw content against the node's
deeply-unwrapped content; on mismatch delete the stale entry and miss. -/
def cacheGet {C O : Type} [DecidableEq C] [DecidableEq O] [Inhabited C]
    (env : O → C) (w : OfWorld C O) (r : Raw C O) : Option Nat × OfWorld C O :=
  match r with
  | Raw.prim _ => (none, w)
  | Raw.objRef o =>
    match (w.cacheMap.find? (fun e => e.1 = o)).map Prod.snd with
    | none => (none, w)
    | some n =>
      if env o = nodeContent w n then (some n, w)
      else (none, { w with cacheMap := w.cacheMap.filter (fun e => ¬ e.1 = o) })

/-- `WeakReactiveCache.set(raw, reactive)`: ignored for unsupported
(primitive) keys; otherwise store or overwrite the entry. -/
def cacheSet {C O : Type} [DecidableEq O] (w : OfWorld C O) (r : Raw C O) (n : Nat) :
    OfWorld C O :=
  match r with
  | Raw.prim _ => w
  | Raw.objRef o =>
    if w.cacheMap.any (fun e => e.1 = o) then
      { w with cacheMap := w.cacheMap.map (fun e => if e.1 = o then (e.1, n) else e) }
    else { w with cacheMap := w.cacheMap ++ [(o, n)] }

/-- `Reactive.of(source, cache = DIRECT_CACHE)` on a raw (non-reactive) value:
consult the cache; on a miss, construct the matching node kind
(`ReactiveFactory.array`/`object`/`value` — modelled uniformly as a fresh
arena node snapshotting the source's content) and store it in the cache.
Returns the node id. -/
def reactiveOf {C O : Type} [DecidableEq C] [DecidableEq O] [Inhabited C]
    (env : O → C) (w : OfWorld C O) (r : Raw C O) : Nat × OfWorld C O :=
  match cacheGet env w r with
  | (some n, w1) => (n, w1)
  | (none, w1) =>
    let n := w1.nodes.length
    let w2 : OfWorld C O := { w1 with nodes := w1.nodes ++ [rawContent env r] }
    (n, cacheSet w2 r n)

/-! ## Select chains (base module `Reactive.select`)

The derivation body of `select(...keys)` walks a chain of keys through plain
JavaScript data:

```
let value: any = this;
for (const key of keys) {
  value = Reactive.unwrap(value, t);
  if (Array.isArray(value)) {
    value = value[mirrorIndex(Number(key), value.length)];
  } else if (isPresent(value)) {
    value = value[key];
  } else {
    throw new Error(...);
  }
}
return value;
```

JavaScript values are modelled by `JSVal` (prototype members such as
`"length"` on strings are not modelled, and the chain values are taken as
already unwrapped plain data — `Reactive.unwrap` on plain data is the
identity).  A thrown `Error` is `Except.error`. -/

inductive JSVal where
  | undef
  | nullv
  | boolean (b : Bool)
  | num (n : Int)
  | str (s : String)
  | arr (elems : List JSVal)
  | obj (fields : List (String × JSVal))

/-- A selection key: a numeric index or a property name
(`keys: Array<keyof any>`). -/
inductive JKey where
  | idx (i : Int)
  | name (s : String)

/-- `Number(key)`: indices pass through; a string is converted to a number if
it is numeric, otherwise the conversion yields `NaN` (modelled as `none`,
since indexing an array with `NaN` yields `undefined`). -/
def keyToNumber : JKey → Option Int
  | JKey.idx i => some i
  | JKey.name s => s.toInt?

/-- JavaScript element read `elems[i]` for an integer `i`: the element when
`0 ≤ i < length`, otherwise `undefined`. -/
def arrGet (elems : List JSVal) (i : Int) : JSVal :=
  if 0 ≤ i then (elems[i.toNat]?).getD JSVal.undef else JSVal.undef

/-- JavaScript property read `value[key]` on a non-array, non-nullish value:
object fields by name (a numeric key reads the field named by its decimal
form); single-character string indexing; any other (autoboxed primitive)
access yields `undefined`. -/
def getProp (v : JSVal) (k : JKey) : JSVal :=
  match v with
  | JSVal.obj fields =>
    match k with
    | JKey.name s => ((fields.find? (fun f => f.1 = s)).map Prod.snd).getD JSVal.undef
    | JKey.idx i => ((fields.find? (fun f => f.1 = toString i)).map Prod.snd).getD JSVal.undef
  | JSVal.str s =>
    match k with
    | JKey.idx i =>
      if 0 ≤ i then ((s.toList[i.toNat]?).map (fun c => JSVal.str (String.mk [c]))).getD JSVal.undef
      else JSVal.undef
    | JKey.name _ => JSVal.undef
  | _ => JSVal.undef

/-- One iteration of the `select` loop on the current chain value. -/
def selStep (value : JSVal) (key : JKey) : Except String JSVal :=
  match value with
  | JSVal.arr elems =>
    match keyToNumber key with
    | some i => Except.ok (arrGet elems (mirrorIndex i elems.length))
    | none => Except.ok JSVal.undef
  | JSVal.undef => Except.error "invalid selection"
  | JSVal.nullv => Except.error "invalid selection"
  | v => Except.ok (getProp v key)

/-- The full `select(...keys)` derivation body over an (unwrapped) root value:
fold the loop over the keys, propagating a thrown error with no recovery. -/
def selectChain (root : JSVal) (keys : List JKey) : Except String JSVal :=
  keys.foldlM selStep root

/-! ### Concrete example data -/

/-- Arena of five leaf nodes holding 10..14, the children of
`exampleArr5`. -/
def exampleWorld5 : CWorld Int :=
  ⟨[⟨10, 0⟩, ⟨11, 0⟩, ⟨12, 0⟩, ⟨13, 0⟩, ⟨14, 0⟩]⟩

/-- A reactive array of length 5 whose elements are the five leaves of
`exampleWorld5`. -/
def exampleArr5 : ArrState Int :=
  ⟨[Comp.node 0, Comp.node 1, Comp.node 2, Comp.node 3, Comp.node 4], false, 0⟩

/-! ## Theorems -/

/-- Claim C5: for a leaf node holding value `x`, `set(v)` with `v` strictly
equal to `x` leaves the stored value unchanged and triggers zero subscriber
notifications, while `set(v)` with `v` not strictly equal to `x` replaces the
stored value with `v` and notifies subscribers exactly once delivering `v`. -/
theorem C5_set_noop_on_equal_notify_on_change {T : Type} [DecidableEq T]
    (s : VState T) (v : T) :
    (v = s.value → vset s v = s) ∧
    (v ≠ s.value →
      (vset s v).value = v ∧ (vset s v).notifications = s.notifications ++ [v]) := by
  refine ⟨fun h => ?_, fun h => ?_⟩
  · simp [vset, h]
  · simp [vset, h]

/-- Witness for C5 at the spec's example: a leaf holding `3`; `set(3)` gives
zero notifications, `set(4)` gives one notification delivering `4`. -/
theorem C5_witness :
    vset (⟨3, []⟩ : VState Int) 3 = ⟨3, []⟩ ∧
    (vset (⟨3, []⟩ : VState Int) 4).value = 4 ∧
    (vset (⟨3, []⟩ : VState Int) 4).notifications = [4] := by
  refine ⟨(C5_set_noop_on_equal_notify_on_change ⟨3, []⟩ 3).1 (by decide), ?_, ?_⟩
  · exact ((C5_set_noop_on_equal_notify_on_change ⟨3, []⟩ 4).2 (by decide)).1
  · have h := ((C5_set_noop_on_equal_notify_on_change (⟨3, []⟩ : VState Int) 4).2 (by decide)).2
    simpa using h

theorem notified_foldl_snapshot (eff : Nat → List Nat → List Nat)
    (l : List Nat) (st : PubState) :
    (l.foldl (notifyStep eff) st).notified = st.notified ++ l := by
  induction l generalizing st with
  | nil => simp
  | cons s rest ih => simp [notifyStep, ih]

/-- Claim C6: `updateSubscribers()` delivers exactly one `update()` call to
each subscriber present in the subscriber set at the moment of the call (the
snapshot `initial`): subscriptions added or removed by subscribers as a side
effect of being notified neither add nor remove recipients of the in-flight
notification pass (the delivered sequence is the snapshot, for every mutation
behaviour `eff`), and the notifying fold is a total function, so no iteration
error can arise. -/
theorem C6_updateSubscribers_snapshot (eff : Nat → List Nat → List Nat)
    (st : PubState) :
    (updateSubscribersFn eff st).notified = st.notified ++ st.subscribers ∧
    (st.subscribers.Nodup → ∀ s ∈ st.subscribers,
      (updateSubscribersFn eff st).notified.count s = st.notified.count s + 1) := by
  have hbase : (updateSubscribersFn eff st).notified = st.notified ++ st.subscribers := by
    simpa [updateSubscribersFn] using notified_foldl_snapshot eff st.subscribers st
  refine ⟨hbase, fun hnd s hs => ?_⟩
  rw [hbase, List.count_append, List.count_eq_one_of_mem hnd hs]

/-- Witness for C6: three subscribers, each of which unsubscribes everyone as
a side effect of being notified; the in-flight pass still delivers exactly one
update to each of the three. -/
theorem C6_witness :
    (updateSubscribersFn (fun _ _ => []) ⟨[1, 2, 3], []⟩).notified = [1, 2, 3] ∧
    (updateSubscribersFn (fun _ _ => []) ⟨[1, 2, 3], []⟩).notified.count 2 = 1 := by
  have h1 := (C6_updateSubscribers_snapshot (fun _ _ => []) ⟨[1, 2, 3], []⟩).1
  have h2 := (C6_updateSubscribers_snapshot (fun _ _ => []) ⟨[1, 2, 3], []⟩).2
    (by decide) 2 (by decide)
  refine ⟨by simpa using h1, ?_⟩
  simpa using h2

/-- Claim C10: for every primitive (non-object) value, `Reactive.of` with the
default cache constructs a fresh `ReactiveValue` node on every call — two
calls with the same primitive return two distinct node ids — because the weak
identity cache ignores both `get` and `set` for non-reference keys (the cache
map is left untouched). -/
theorem C10_primitives_always_fresh {C O : Type} [DecidableEq C] [DecidableEq O]
    [Inhabited C] (env : O → C) (w : OfWorld C O) (c : C) :
    (reactiveOf env w (Raw.prim c)).1 = w.nodes.length ∧
    (reactiveOf env w (Raw.prim c)).2.cacheMap = w.cacheMap ∧
    (reactiveOf env (reactiveOf env w (Raw.prim c)).2 (Raw.prim c)).1
      = w.nodes.length + 1 ∧
    (reactiveOf env w (Raw.prim c)).1
      ≠ (reactiveOf env (reactiveOf env w (Raw.prim c)).2 (Raw.prim c)).1 := by
  refine ⟨rfl, rfl, by simp [reactiveOf, cacheGet, cacheSet, rawContent], ?_⟩
  simp [reactiveOf, cacheGet, cacheSet, rawContent]

/-- Claim C2: the derivation function is invoked exactly once between two
consecutive invalidations: the first `unwrap` in the invalid state evaluates
it (one more invocation), marks the derivative valid and memoizes the result;
every further `unwrap` before the next `update()` leaves the state fixed
(hence no further invocation) and returns the memoized value; `update()`
re-enters the invalid state. -/
theorem C2_derivative_memoization {E T : Type} [Inhabited T]
    (f : (Nat → E) → T × Finset Nat) (env : Nat → E) (st : DState T)
    (h : st.valid = false) :
    (unwrapD f env st).2.evalCount = st.evalCount + 1 ∧
    (unwrapD f env st).1 = (f env).1 ∧
    (unwrapD f env st).2.valid = true ∧
    (unwrapD f env st).2.value = some (f env).1 ∧
    (unwrapD f env (unwrapD f env st).2).1 = (f env).1 ∧
    (∀ n, unwrapIter f env n (unwrapD f env st).2 = (unwrapD f env st).2) ∧
    (updateD (unwrapD f env st).2).valid = false := by
  have hvalid : (unwrapD f env st).2.valid = true := by simp [unwrapD, h]
  have hvalue : (unwrapD f env st).2.value = some (f env).1 := by simp [unwrapD, h]
  have hfix : unwrapD f env (unwrapD f env st).2 = ((f env).1, (unwrapD f env st).2) := by
    rw [unwrapD, if_pos hvalid, hvalue]
    rfl
  refine ⟨by simp [unwrapD, h], by simp [unwrapD, h], hvalid, hvalue, ?_, ?_, rfl⟩
  · rw [hfix]
  · intro n
    induction n with
    | zero => rfl
    | succ m ih =>
      rw [unwrapIter]
      rw [hfix]
      exact ih

/-- Witness for C2: a derivation returning 42 while tracking publisher 1,
started on a fresh (invalid) derivative state. -/
theorem C2_witness :
    (unwrapD (fun _ : Nat → Int => ((42 : Int), ({1} : Finset Nat))) (fun _ => 0)
      ⟨false, none, ∅, fun _ => false, {7}, 0, 0⟩).2.evalCount = 1 ∧
    (unwrapD (fun _ : Nat → Int => ((42 : Int), ({1} : Finset Nat))) (fun _ => 0)
      ⟨false, none, ∅, fun _ => false, {7}, 0, 0⟩).1 = 42 ∧
    (∀ n, unwrapIter (fun _ : Nat → Int => ((42 : Int), ({1} : Finset Nat))) (fun _ => 0) n
        (unwrapD (fun _ : Nat → Int => ((42 : Int), ({1} : Finset Nat))) (fun _ => 0)
          ⟨false, none, ∅, fun _ => false, {7}, 0, 0⟩).2
      = (unwrapD (fun _ : Nat → Int => ((42 : Int), ({1} : Finset Nat))) (fun _ => 0)
          ⟨false, none, ∅, fun _ => false, {7}, 0, 0⟩).2) := by
  have h := C2_derivative_memoization
    (fun _ : Nat → Int => ((42 : Int), ({1} : Finset Nat))) (fun _ => 0)
    ⟨false, none, ∅, fun _ => false, {7}, 0, 0⟩ rfl
  exact ⟨h.1, h.2.1, h.2.2.2.2.2.1⟩

/-- Claim C3: after an evaluation (an `unwrap` while invalid) the derivative's
upstream subscription set is exactly the set of publishers tracked through
`subscribeTo` during that evaluation; every tracked publisher holds the
derivative in its subscriber set (so a change to it invalidates the
derivative), and every publisher subscribed before but not re-tracked this
round has been unsubscribed (so a change to it no longer reaches the
derivative at all). -/
theorem C3_stale_subscription_pruning {E T : Type} [Inhabited T]
    (f : (Nat → E) → T × Finset Nat) (env : Nat → E) (st : DState T)
    (h : st.valid = false) :
    (unwrapD f env st).2.subscriptions = (f env).2 ∧
    (∀ p ∈ (f env).2,
      (unwrapD f env st).2.pubSubs p = true ∧
      (pubChanged p (unwrapD f env st).2).valid = false) ∧
    (∀ p ∈ st.subscriptions, p ∉ (f env).2 →
      (unwrapD f env st).2.pubSubs p = false ∧
      pubChanged p (unwrapD f env st).2 = (unwrapD f env st).2) := by
  refine ⟨by simp [unwrapD, h], fun p hp => ?_, fun p hold hp => ?_⟩
  · have hsub : (unwrapD f env st).2.pubSubs p = true := by
      simp [unwrapD, h, hp]
    exact ⟨hsub, by simp [pubChanged, hsub, updateD]⟩
  · have hsub : (unwrapD f env st).2.pubSubs p = false := by
      simp [unwrapD, h, hold, hp]
    exact ⟨hsub, by simp [pubChanged, hsub]⟩

/-- Witness for C3, the spec's dependency-pruning scenario: the previous
evaluation tracked publisher 0 (still subscribed in the starting state); after
the branch switch the derivation reads publishers 2 and 1 only, so publisher 0
is pruned — changing it no longer invalidates — while changing publisher 1
does invalidate. -/
theorem C3_witness :
    (unwrapD (fun env : Nat → Int => if env 2 = 0 then (env 0, ({2, 0} : Finset Nat))
        else (env 1, ({2, 1} : Finset Nat)))
      (fun p => if p = 1 then 200 else if p = 2 then 1 else 0)
      ⟨false, none, {0}, fun p => decide (p = 0), {7}, 1, 1⟩).2.subscriptions
      = ({2, 1} : Finset Nat) ∧
    (unwrapD (fun env : Nat → Int => if env 2 = 0 then (env 0, ({2, 0} : Finset Nat))
        else (env 1, ({2, 1} : Finset Nat)))
      (fun p => if p = 1 then 200 else if p = 2 then 1 else 0)
      ⟨false, none, {0}, fun p => decide (p = 0), {7}, 1, 1⟩).2.pubSubs 1 = true ∧
    (pubChanged 1 (unwrapD (fun env : Nat → Int => if env 2 = 0 then (env 0, ({2, 0} : Finset Nat))
        else (env 1, ({2, 1} : Finset Nat)))
      (fun p => if p = 1 then 200 else if p = 2 then 1 else 0)
      ⟨false, none, {0}, fun p => decide (p = 0), {7}, 1, 1⟩).2).valid = false ∧
    (unwrapD (fun env : Nat → Int => if env 2 = 0 then (env 0, ({2, 0} : Finset Nat))
        else (env 1, ({2, 1} : Finset Nat)))
      (fun p => if p = 1 then 200 else if p = 2 then 1 else 0)
      ⟨false, none, {0}, fun p => decide (p = 0), {7}, 1, 1⟩).2.pubSubs 0 = false ∧
    pubChanged 0 (unwrapD (fun env : Nat → Int => if env 2 = 0 then (env 0, ({2, 0} : Finset Nat))
        else (env 1, ({2, 1} : Finset Nat)))
      (fun p => if p = 1 then 200 else if p = 2 then 1 else 0)
      ⟨false, none, {0}, fun p => decide (p = 0), {7}, 1, 1⟩).2
      = (unwrapD (fun env : Nat → Int => if env 2 = 0 then (env 0, ({2, 0} : Finset Nat))
        else (env 1, ({2, 1} : Finset Nat)))
      (fun p => if p = 1 then 200 else if p = 2 then 1 else 0)
      ⟨false, none, {0}, fun p => decide (p = 0), {7}, 1, 1⟩).2 := by
  have h := C3_stale_subscription_pruning
    (fun env : Nat → Int => if env 2 = 0 then (env 0, ({2, 0} : Finset Nat))
      else (env 1, ({2, 1} : Finset Nat)))
    (fun p => if p = 1 then 200 else if p = 2 then 1 else 0)
    ⟨false, none, {0}, fun p => decide (p = 0), {7}, 1, 1⟩ rfl
  have hreads := h.2.1 1 (by decide)
  have hstale := h.2.2 0 (by decide) (by decide)
  exact ⟨by simpa using h.1, by simpa using hreads.1, by simpa using hreads.2,
    hstale.1, hstale.2⟩

/-- Claim C4: when an `unsubscribe` leaves a derivative with no subscribers,
it auto-frees: validity drops, the memoized value is dropped, the derivative
is unsubscribed from every publisher in its upstream subscription set and that
set is emptied — so a change to a formerly-tracked publisher no longer
reaches the derivative at all (no further recomputation work). -/
theorem C4_auto_free_on_last_unsubscribe {T : Type} (st : DState T) (s : Nat)
    (h : st.dsubs.erase s = ∅) :
    (unsubscribeD s st).valid = false ∧
    (unsubscribeD s st).value = none ∧
    (unsubscribeD s st).subscriptions = ∅ ∧
    (∀ p ∈ st.subscriptions, (unsubscribeD s st).pubSubs p = false) ∧
    (∀ p ∈ st.subscriptions, pubChanged p (unsubscribeD s st) = unsubscribeD s st) ∧
    (∀ p, p ∉ st.subscriptions → (unsubscribeD s st).pubSubs p = st.pubSubs p) := by
  have hfree : unsubscribeD s st = freeD { st with dsubs := st.dsubs.erase s } := by
    rw [unsubscribeD]
    simp [h]
  refine ⟨by rw [hfree]; rfl, by rw [hfree]; rfl, by rw [hfree]; rfl,
    fun p hp => ?_, fun p hp => ?_, fun p hp => ?_⟩
  · rw [hfree]; simp [freeD, hp]
  · have hps : (unsubscribeD s st).pubSubs p = false := by rw [hfree]; simp [freeD, hp]
    simp [pubChanged, hps]
  · rw [hfree]; simp [freeD, hp]

/-- Witness for C4: a derivative with single subscriber 7 and upstream
subscriptions to publishers 1 and 2; unsubscribing 7 frees it and detaches it
from both publishers. -/
theorem C4_witness :
    (unsubscribeD 7 ⟨true, some (5 : Int), {1, 2},
        fun p => decide (p = 1) || decide (p = 2), {7}, 3, 3⟩).valid = false ∧
    (unsubscribeD 7 ⟨true, some (5 : Int), {1, 2},
        fun p => decide (p = 1) || decide (p = 2), {7}, 3, 3⟩).value = none ∧
    (unsubscribeD 7 ⟨true, some (5 : Int), {1, 2},
        fun p => decide (p = 1) || decide (p = 2), {7}, 3, 3⟩).subscriptions = ∅ ∧
    (unsubscribeD 7 ⟨true, some (5 : Int), {1, 2},
        fun p => decide (p = 1) || decide (p = 2), {7}, 3, 3⟩).pubSubs 1 = false ∧
    pubChanged 2 (unsubscribeD 7 ⟨true, some (5 : Int), {1, 2},
        fun p => decide (p = 1) || decide (p = 2), {7}, 3, 3⟩)
      = unsubscribeD 7 ⟨true, some (5 : Int), {1, 2},
        fun p => decide (p = 1) || decide (p = 2), {7}, 3, 3⟩ := by
  have h := C4_auto_free_on_last_unsubscribe
    (⟨true, some (5 : Int), {1, 2}, fun p => decide (p = 1) || decide (p = 2), {7}, 3, 3⟩ :
      DState Int) 7 (by decide)
  exact ⟨h.1, h.2.1, h.2.2.1, h.2.2.2.1 1 (by decide), h.2.2.2.2.1 2 (by decide)⟩

set_option maxRecDepth 8192 in
/-- Claim C7: the three concrete examples of the spec do hold on a length-5
array — `removeAt(-2, 1)` removes the element at index 3, `splice(100, 0, [x])`
appends `x` at the end, and `splice(-100, 1)` removes the first element — but
the general clamping rule fails: `normalizeRangeLength(5, 100, 0)` evaluates
to 100, not to a value bounded by `length - start = 5` as its own
documentation ("effectively ensures that it is within [0, limit - start]")
and the claim state; observably, `fill(v, 0, 100)` on the length-5 array
grows it to 100 components instead of clamping the end of the range. -/
theorem C7_index_normalization_unclamped :
    (removeAtA exampleWorld5 exampleArr5 (-2) 1).2.comps
      = [Comp.node 0, Comp.node 1, Comp.node 2, Comp.node 4] ∧
    (spliceA exampleWorld5 exampleArr5 100 0 [99]).2.comps
      = [Comp.node 0, Comp.node 1, Comp.node 2, Comp.node 3, Comp.node 4, Comp.node 5] ∧
    (spliceA exampleWorld5 exampleArr5 100 0 [99]).1.leaves[5]? = some ⟨99, 0⟩ ∧
    (spliceA exampleWorld5 exampleArr5 (-100) 1 []).2.comps
      = [Comp.node 1, Comp.node 2, Comp.node 3, Comp.node 4] ∧
    normalizeRangeLength 5 100 0 = 100 ∧
    ¬ normalizeRangeLength 5 100 0 ≤ 5 - 0 ∧
    (fillA exampleWorld5 exampleArr5 7 0 100).2.comps.length = 100 := by
  refine ⟨by decide, by decide, by decide, by decide, by decide, by decide, by decide⟩

/-- Counterexample to claim C8 as stated: selecting the key `"a"` through the
number `5` — a value that is neither indexable nor of an expected
object/array shape — does not throw; the select evaluates to `undefined`. -/
theorem C8_counterexample_primitive_no_throw :
    selectChain (JSVal.num 5) [JKey.name "a"] = Except.ok JSVal.undef := rfl

theorem arrGet_mirror_oob (elems : List JSVal) (i : Int)
    (h : (elems.length : Int) ≤ i ∨ i < -(elems.length : Int)) :
    arrGet elems (mirrorIndex i elems.length) = JSVal.undef := by
  rcases h with h | h
  · have h1 : ¬ i < 0 := by omega
    have h2 : (0 : Int) ≤ i := by omega
    have h3 : elems.length ≤ i.toNat := by omega
    simp only [mirrorIndex, if_neg h1, arrGet, if_pos h2, List.getElem?_eq_none h3,
      Option.getD_none]
  · have h1 : i < 0 := by omega
    have h2 : ¬ (0 : Int) ≤ i + elems.length := by omega
    simp only [mirrorIndex, if_pos h1, arrGet, if_neg h2]

theorem arrGet_mirror_neg_inbounds (elems : List JSVal) (i : Int)
    (h1 : -(elems.length : Int) ≤ i) (h2 : i < 0) :
    arrGet elems (mirrorIndex i elems.length)
      = (elems[(i + elems.length).toNat]?).getD JSVal.undef := by
  have h3 : (0 : Int) ≤ i + elems.length := by omega
  simp only [mirrorIndex, if_pos h2, arrGet, if_pos h3]

/-- Claim C8 as amended: when an intermediate value of a select chain is an
array, an out-of-range index yields `undefined` and an in-range negative
index counts back from the end; the select derivation throws immediately,
with no recovery, exactly when an intermediate value is null or undefined —
selecting a key off any other non-indexable primitive (e.g. a number) yields
`undefined` instead of throwing, and a chain continuing past such a value
then throws at the next step. -/
theorem C8_select_throws_only_on_nullish :
    (∀ (elems : List JSVal) (i : Int),
      ((elems.length : Int) ≤ i ∨ i < -(elems.length : Int)) →
      selStep (JSVal.arr elems) (JKey.idx i) = Except.ok JSVal.undef) ∧
    (∀ (elems : List JSVal) (i : Int), -(elems.length : Int) ≤ i → i < 0 →
      selStep (JSVal.arr elems) (JKey.idx i)
        = Except.ok ((elems[(i + elems.length).toNat]?).getD JSVal.undef)) ∧
    (∀ k, selStep JSVal.nullv k = Except.error "invalid selection" ∧
      selStep JSVal.undef k = Except.error "invalid selection") ∧
    (∀ (n : Int) (k : JKey), selStep (JSVal.num n) k = Except.ok JSVal.undef) ∧
    selectChain (JSVal.num 5) [JKey.name "a", JKey.name "b"]
      = Except.error "invalid selection" := by
  refine ⟨fun elems i h => ?_, fun elems i h1 h2 => ?_, fun k => ⟨rfl, rfl⟩,
    fun n k => ?_, rfl⟩
  · simp only [selStep, keyToNumber]
    rw [arrGet_mirror_oob elems i h]
  · simp only [selStep, keyToNumber]
    rw [arrGet_mirror_neg_inbounds elems i h1 h2]
  · cases k <;> rfl

/-- Witness for C8 on a length-5 array and on concrete nullish/primitive
intermediates. -/
theorem C8_witness :
    selStep (JSVal.arr [JSVal.num 1, JSVal.num 2, JSVal.num 3, JSVal.num 4, JSVal.num 5])
        (JKey.idx 100) = Except.ok JSVal.undef ∧
    selStep (JSVal.arr [JSVal.num 1, JSVal.num 2, JSVal.num 3, JSVal.num 4, JSVal.num 5])
        (JKey.idx (-2)) = Except.ok (JSVal.num 4) ∧
    selStep JSVal.nullv (JKey.name "a") = Except.error "invalid selection" ∧
    selStep (JSVal.num 7) (JKey.name "a") = Except.ok JSVal.undef := by
  have h := C8_select_throws_only_on_nullish
  refine ⟨h.1 _ 100 (by decide), ?_, (h.2.2.1 (JKey.name "a")).1, h.2.2.2.1 7 (JKey.name "a")⟩
  have h2 := h.2.1 [JSVal.num 1, JSVal.num 2, JSVal.num 3, JSVal.num 4, JSVal.num 5]
    (-2) (by decide) (by decide)
  exact h2.trans rfl

theorem find?_filter_not_key {O : Type} [DecidableEq O] (m : List (O × Nat)) (o : O) :
    (m.filter (fun e => ¬ e.1 = o)).find? (fun e => e.1 = o) = none := by
  rw [List.find?_eq_none]
  intro x hx
  have h := (List.mem_filter.mp hx).2
  simp only [decide_not, Bool.not_eq_true'] at h ⊢
  simpa using h

theorem any_eq_false_of_find?_none {α : Type} (p : α → Bool) (m : List α)
    (h : m.find? p = none) : m.any p = false := by
  rw [List.any_eq_false]
  intro x hx
  exact List.find?_eq_none.mp h x hx

theorem find?_append_left_none {α : Type} (p : α → Bool) (l1 l2 : List α)
    (h : l1.find? p = none) : (l1 ++ l2).find? p = l2.find? p := by
  induction l1 with
  | nil => rfl
  | cons a l ih =>
    rw [List.find?] at h
    rw [List.cons_append, List.find?]
    cases hp : p a with
    | true => rw [hp] at h; exact absurd h (by simp)
    | false =>
      rw [hp] at h
      simp only [cond_false] at h ⊢
      exact ih h

/-- Claim C9: wrapping the same raw object twice through `Reactive.of` with
the default identity cache, without intervening structural mutation, returns
the same node both times; and on a cache lookup the entry is revalidated by
deep-comparing the raw value's content against the cached node's
deeply-unwrapped content — on mismatch the stale entry is evicted and a fresh
node (a new id, holding the current content, now cached) is created instead
of reusing the cached one. -/
theorem C9_identity_cache_stability {C O : Type} [DecidableEq C] [DecidableEq O]
    [Inhabited C] (env : O → C) (w : OfWorld C O) (o : O) :
    ((reactiveOf env (reactiveOf env w (Raw.objRef o)).2 (Raw.objRef o)).1
      = (reactiveOf env w (Raw.objRef o)).1) ∧
    (∀ n, (w.cacheMap.find? (fun e => e.1 = o)).map Prod.snd = some n →
      env o ≠ nodeContent w n → n < w.nodes.length →
      (reactiveOf env w (Raw.objRef o)).1 = w.nodes.length ∧
      (reactiveOf env w (Raw.objRef o)).1 ≠ n ∧
      nodeContent (reactiveOf env w (Raw.objRef o)).2 (reactiveOf env w (Raw.objRef o)).1
        = env o ∧
      ((reactiveOf env w (Raw.objRef o)).2.cacheMap.find? (fun e => e.1 = o)).map Prod.snd
        = some (reactiveOf env w (Raw.objRef o)).1) := by
  have hsecond : ∀ (m : List (O × Nat)) (nodes : List C),
      m.find? (fun e => e.1 = o) = none →
      reactiveOf env { nodes := nodes ++ [env o], cacheMap := m ++ [(o, nodes.length)] }
          (Raw.objRef o)
        = (nodes.length,
           { nodes := nodes ++ [env o], cacheMap := m ++ [(o, nodes.length)] }) := by
    intro m nodes hm
    have hfind : ((m ++ [(o, nodes.length)]).find? (fun e => e.1 = o))
        = some (o, nodes.length) := by
      rw [find?_append_left_none _ _ _ hm]
      simp [List.find?]
    have hcontent : nodeContent
        ({ nodes := nodes ++ [env o], cacheMap := m ++ [(o, nodes.length)] } : OfWorld C O)
        nodes.length = env o := by
      simp [nodeContent, List.getD]
    simp [reactiveOf, cacheGet, hfind, hcontent]
  constructor
  · cases hfind : w.cacheMap.find? (fun e => e.1 = o) with
    | none =>
      have hany : w.cacheMap.any (fun e => e.1 = o) = false :=
        any_eq_false_of_find?_none _ _ hfind
      have h1 : reactiveOf env w (Raw.objRef o)
          = (w.nodes.length,
             { nodes := w.nodes ++ [env o], cacheMap := w.cacheMap ++ [(o, w.nodes.length)] }) := by
        simp [reactiveOf, cacheGet, cacheSet, rawContent, hfind, hany]
      rw [h1]
      rw [hsecond w.cacheMap w.nodes hfind]
    | some e =>
      by_cases hval : env o = nodeContent w e.2
      · have h1 : reactiveOf env w (Raw.objRef o) = (e.2, w) := by
          simp [reactiveOf, cacheGet, hfind, hval]
        rw [h1, h1]
      · have hfilter : (w.cacheMap.filter (fun e => ¬ e.1 = o)).find? (fun e => e.1 = o)
            = none := find?_filter_not_key w.cacheMap o
        have hany : (w.cacheMap.filter (fun e => ¬ e.1 = o)).any (fun e => e.1 = o)
            = false := any_eq_false_of_find?_none _ _ hfilter
        have h1 : reactiveOf env w (Raw.objRef o)
            = (w.nodes.length,
               { nodes := w.nodes ++ [env o],
                 cacheMap := w.cacheMap.filter (fun e => ¬ e.1 = o)
                   ++ [(o, w.nodes.length)] }) := by
          simp [reactiveOf, cacheGet, cacheSet, rawContent, hfind, hval, hany]
        rw [h1]
        rw [hsecond _ w.nodes hfilter]
  · intro n hn hval hlt
    obtain ⟨e, he, he2⟩ := Option.map_eq_some'.mp hn
    have hfilter : (w.cacheMap.filter (fun e => ¬ e.1 = o)).find? (fun e => e.1 = o)
        = none := find?_filter_not_key w.cacheMap o
    have hany : (w.cacheMap.filter (fun e => ¬ e.1 = o)).any (fun e => e.1 = o)
        = false := any_eq_false_of_find?_none _ _ hfilter
    have hvale : ¬ env o = nodeContent w e.2 := by rw [he2]; exact hval
    have h1 : reactiveOf env w (Raw.objRef o)
        = (w.nodes.length,
           { nodes := w.nodes ++ [env o],
             cacheMap := w.cacheMap.filter (fun e => ¬ e.1 = o)
               ++ [(o, w.nodes.length)] }) := by
      simp [reactiveOf, cacheGet, cacheSet, rawContent, he, hvale, hany]
    refine ⟨by rw [h1], by rw [h1]; omega, ?_, ?_⟩
    · rw [h1]
      simp [nodeContent, List.getD]
    · rw [h1]
      have := find?_append_left_none (fun e : O × Nat => decide (e.1 = o))
        (w.cacheMap.filter (fun e => ¬ e.1 = o)) [(o, w.nodes.length)] hfilter
      simp only [this]
      simp [List.find?]

/-- Witness for C9: the environment gives object `"x"` content 5 while the
stale cache maps `"x"` to node 0 holding content 7 — the lookup evicts the
stale entry and creates fresh node 1 with the current content, re-cached. -/
theorem C9_witness :
    ((reactiveOf (fun _ => (5 : Int))
        (reactiveOf (fun _ => (5 : Int)) ({ nodes := [], cacheMap := [] } : OfWorld Int String)
          (Raw.objRef "x")).2 (Raw.objRef "x")).1
      = (reactiveOf (fun _ => (5 : Int)) ({ nodes := [], cacheMap := [] } : OfWorld Int String)
          (Raw.objRef "x")).1) ∧
    (reactiveOf (fun _ => (5 : Int)) ({ nodes := [7], cacheMap := [("x", 0)] } : OfWorld Int String)
      (Raw.objRef "x")).1 = 1 ∧
    (reactiveOf (fun _ => (5 : Int)) ({ nodes := [7], cacheMap := [("x", 0)] } : OfWorld Int String)
      (Raw.objRef "x")).1 ≠ 0 ∧
    nodeContent (reactiveOf (fun _ => (5 : Int))
        ({ nodes := [7], cacheMap := [("x", 0)] } : OfWorld Int String) (Raw.objRef "x")).2
      (reactiveOf (fun _ => (5 : Int))
        ({ nodes := [7], cacheMap := [("x", 0)] } : OfWorld Int String) (Raw.objRef "x")).1
      = 5 := by
  have ha := (C9_identity_cache_stability (fun _ => (5 : Int))
    ({ nodes := [], cacheMap := [] } : OfWorld Int String) "x").1
  have hb := (C9_identity_cache_stability (fun _ => (5 : Int))
    ({ nodes := [7], cacheMap := [("x", 0)] } : OfWorld Int String) "x").2 0 rfl
    (by decide) (by decide)
  exact ⟨ha, hb.1, hb.2.1, hb.2.2.1⟩

theorem find?_fst_map_setCompO {V : Type} (l : List (String × Comp V)) (k k2 : String)
    (c : Comp V) (h : ¬ k2 = k) :
    (l.map (fun p => if p.1 = k2 then (p.1, c) else p)).find? (fun p => p.1 = k)
      = l.find? (fun p => p.1 = k) := by
  induction l with
  | nil => rfl
  | cons a l ih =>
    rw [List.map_cons]
    by_cases hk : a.1 = k
    · have hk2 : ¬ a.1 = k2 := fun hh => h (hh.symm.trans hk)
      rw [if_neg hk2, List.find?_cons_of_pos _ (by simpa using hk),
        List.find?_cons_of_pos _ (by simpa using hk)]
    · by_cases hk2 : a.1 = k2
      · rw [if_pos hk2, List.find?_cons_of_neg _ (by simpa using hk),
          List.find?_cons_of_neg _ (by simpa using hk)]
        exact ih
      · rw [if_neg hk2, List.find?_cons_of_neg _ (by simpa using hk),
          List.find?_cons_of_neg _ (by simpa using hk)]
        exact ih

theorem lookupComp_setCompO_ne {V : Type} (comps : List (String × Comp V)) (k k2 : String)
    (c : Comp V) (h : ¬ k2 = k) :
    lookupComp (setCompO comps k2 c) k = lookupComp comps k := by
  unfold setCompO lookupComp
  split
  · rw [find?_fst_map_setCompO comps k k2 c h]
  · rw [List.find?_append]
    have hsing : List.find? (fun p => decide (p.1 = k)) [(k2, c)] = none := by
      simp [List.find?, h]
    rw [hsing]
    simp

theorem mem_setCompO {V : Type} (comps : List (String × Comp V)) (k2 : String) (c : Comp V)
    (q : String × Comp V) (hq : q ∈ setCompO comps k2 c) : q.2 = c ∨ q ∈ comps := by
  unfold setCompO at hq
  split at hq
  · obtain ⟨p, hp, hpq⟩ := List.mem_map.mp hq
    by_cases hpk : p.1 = k2
    · rw [if_pos hpk] at hpq
      left; rw [← hpq]
    · rw [if_neg hpk] at hpq
      right; rw [← hpq]; exact hp
  · rcases List.mem_append.mp hq with h | h
    · right; exact h
    · left; rw [List.mem_singleton.mp h]

theorem leafSet_length {V : Type} [DecidableEq V] (w : CWorld V) (id2 : Nat) (v : V) :
    (leafSet w id2 v).leaves.length = w.leaves.length := by
  unfold leafSet
  split
  · rfl
  · split
    · rfl
    · simp

theorem leafSet_getElem?_ne {V : Type} [DecidableEq V] (w : CWorld V) (id2 id : Nat) (v : V)
    (h : ¬ id = id2) : (leafSet w id2 v).leaves[id]? = w.leaves[id]? := by
  unfold leafSet
  split
  · rfl
  · split
    · rfl
    · exact List.getElem?_set_ne (fun hh => h hh.symm)

theorem leafSet_noop {V : Type} [DecidableEq V] (w : CWorld V) (id : Nat) (lf : LeafNode V)
    (h : w.leaves[id]? = some lf) : leafSet w id lf.value = w := by
  unfold leafSet
  rw [h]
  simp

theorem lookupComp_mem {V : Type} (comps : List (String × Comp V)) (k : String) (c : Comp V)
    (h : lookupComp comps k = some c) : (k, c) ∈ comps := by
  unfold lookupComp at h
  obtain ⟨q, hq, hq2⟩ := Option.map_eq_some'.mp h
  have hmem := List.mem_of_find?_eq_some hq
  have hpred := List.find?_some hq
  have hk : q.1 = k := by simpa using hpred
  have : q = (k, c) := by
    cases q
    simp only at hk hq2
    rw [hk, hq2]
  rw [← this]
  exact hmem

theorem commitO_comps {V : Type} (a : ObjState V) : (commitO a).comps = a.comps := by
  unfold commitO
  split <;> rfl

theorem commitA_comps {V : Type} (a : ArrState V) : (commitA a).comps = a.comps := by
  unfold commitA
  split <;> rfl

theorem patchComponentO_preserves {V : Type} [DecidableEq V] [Inhabited V]
    (w : CWorld V) (a : ObjState V) (k k2 : String) (id : Nat) (lf : LeafNode V) (v2 : V)
    (w0len : Nat)
    (hk : ¬ k2 = k)
    (hidlt : id < w0len)
    (hlen : w0len ≤ w.leaves.length)
    (hleaf : w.leaves[id]? = some lf)
    (hcomp : lookupComp a.comps k = some (Comp.node id))
    (halias : ∀ q ∈ a.comps, q.2 = Comp.node id → q.1 = k) :
    w0len ≤ (patchComponentO w a k2 v2).1.leaves.length ∧
    (patchComponentO w a k2 v2).1.leaves[id]? = some lf ∧
    lookupComp (patchComponentO w a k2 v2).2.comps k = some (Comp.node id) ∧
    ∀ q ∈ (patchComponentO w a k2 v2).2.comps, q.2 = Comp.node id → q.1 = k := by
  cases hc : lookupComp a.comps k2 with
  | some c =>
    cases c with
    | node id2 =>
      have hne : ¬ id2 = id := by
        intro he
        exact hk (halias (k2, Comp.node id2) (lookupComp_mem _ _ _ hc) (by rw [he]))
      have hstep : patchComponentO w a k2 v2 = (leafPatch w id2 v2, a) := by
        simp only [patchComponentO, hc]
      rw [hstep]
      refine ⟨?_, ?_, hcomp, halias⟩
      · show w0len ≤ (leafSet w id2 v2).leaves.length
        rw [leafSet_length]; exact hlen
      · show (leafSet w id2 v2).leaves[id]? = some lf
        rw [leafSet_getElem?_ne w id2 id v2 (fun he => hne he.symm)]; exact hleaf
    | raw vv =>
      have hstep : patchComponentO w a k2 v2
          = ({ leaves := w.leaves ++ [{ value := v2, notifyCount := 0 }] },
             { a with comps := setCompO a.comps k2 (Comp.node w.leaves.length), dirty := true }) := by
        simp only [patchComponentO, hc, allocLeaf]
      rw [hstep]
      refine ⟨?_, ?_, ?_, ?_⟩
      · show w0len ≤ (w.leaves ++ [_]).length
        rw [List.length_append]; omega
      · show (w.leaves ++ [_])[id]? = some lf
        rw [List.getElem?_append, if_pos (by omega)]; exact hleaf
      · show lookupComp (setCompO a.comps k2 (Comp.node w.leaves.length)) k = _
        rw [lookupComp_setCompO_ne _ _ _ _ hk]; exact hcomp
      · intro q hq hq2
        rcases mem_setCompO _ _ _ _ hq with h1 | h1
        · rw [hq2] at h1
          injection h1 with h2
          omega
        · exact halias q h1 hq2
  | none =>
    have hstep : patchComponentO w a k2 v2
        = ({ leaves := w.leaves ++ [{ value := v2, notifyCount := 0 }] },
           { a with comps := setCompO a.comps k2 (Comp.node w.leaves.length), dirty := true }) := by
      simp only [patchComponentO, hc, allocLeaf]
    rw [hstep]
    refine ⟨?_, ?_, ?_, ?_⟩
    · show w0len ≤ (w.leaves ++ [_]).length
      rw [List.length_append]; omega
    · show (w.leaves ++ [_])[id]? = some lf
      rw [List.getElem?_append, if_pos (by omega)]; exact hleaf
    · show lookupComp (setCompO a.comps k2 (Comp.node w.leaves.length)) k = _
      rw [lookupComp_setCompO_ne _ _ _ _ hk]; exact hcomp
    · intro q hq hq2
      rcases mem_setCompO _ _ _ _ hq with h1 | h1
      · rw [hq2] at h1
        injection h1 with h2
        omega
      · exact halias q h1 hq2

theorem patchStepO_preserves_inv {V : Type} [DecidableEq V] [Inhabited V]
    (source : List (String × V)) (k : String) (id : Nat) (lf : LeafNode V) (w0len : Nat)
    (hsrc : lookupSrc source k = some lf.value)
    (hidlt : id < w0len)
    (w : CWorld V) (a : ObjState V) (k2 : String)
    (hlen : w0len ≤ w.leaves.length)
    (hleaf : w.leaves[id]? = some lf)
    (hcomp : lookupComp a.comps k = some (Comp.node id))
    (halias : ∀ q ∈ a.comps, q.2 = Comp.node id → q.1 = k) :
    w0len ≤ (patchStepO source (w, a) k2).1.leaves.length ∧
    (patchStepO source (w, a) k2).1.leaves[id]? = some lf ∧
    lookupComp (patchStepO source (w, a) k2).2.comps k = some (Comp.node id) ∧
    ∀ q ∈ (patchStepO source (w, a) k2).2.comps, q.2 = Comp.node id → q.1 = k := by
  by_cases hk : k2 = k
  · subst hk
    have hstep : patchStepO source (w, a) k2 = (w, a) := by
      simp only [patchStepO, hsrc, patchComponentO, hcomp, leafPatch]
      rw [leafSet_noop w id lf hleaf]
    rw [hstep]
    exact ⟨hlen, hleaf, hcomp, halias⟩
  · cases hsv : lookupSrc source k2 with
    | some v2 =>
      have hstep : patchStepO source (w, a) k2 = patchComponentO w a k2 v2 := by
        simp only [patchStepO, hsv]
      rw [hstep]
      exact patchComponentO_preserves w a k k2 id lf v2 w0len hk hidlt hlen hleaf hcomp halias
    | none =>
      have hstep : patchStepO source (w, a) k2 = (w, doRemoveO a k2) := by
        simp only [patchStepO, hsv]
      rw [hstep]
      refine ⟨hlen, hleaf, ?_, ?_⟩
      · unfold doRemoveO
        split
        · show lookupComp (setCompO a.comps k2 (Comp.raw default)) k = _
          rw [lookupComp_setCompO_ne _ _ _ _ hk]; exact hcomp
        · exact hcomp
      · intro q hq hq2
        unfold doRemoveO at hq
        split at hq
        · rcases mem_setCompO _ _ _ _ hq with h1 | h1
          · rw [hq2] at h1
            cases h1
          · exact halias q h1 hq2
        · exact halias q hq hq2

theorem patchFold_inv {V : Type} [DecidableEq V] [Inhabited V]
    (source : List (String × V)) (k : String) (id : Nat) (lf : LeafNode V) (w0len : Nat)
    (hsrc : lookupSrc source k = some lf.value)
    (hidlt : id < w0len) :
    ∀ (keys : List String) (w : CWorld V) (a : ObjState V),
      w0len ≤ w.leaves.length →
      w.leaves[id]? = some lf →
      lookupComp a.comps k = some (Comp.node id) →
      (∀ q ∈ a.comps, q.2 = Comp.node id → q.1 = k) →
      w0len ≤ (keys.foldl (patchStepO source) (w, a)).1.leaves.length ∧
      (keys.foldl (patchStepO source) (w, a)).1.leaves[id]? = some lf ∧
      lookupComp (keys.foldl (patchStepO source) (w, a)).2.comps k = some (Comp.node id) ∧
      ∀ q ∈ (keys.foldl (patchStepO source) (w, a)).2.comps,
        q.2 = Comp.node id → q.1 = k := by
  intro keys
  induction keys with
  | nil => intro w a h1 h2 h3 h4; exact ⟨h1, h2, h3, h4⟩
  | cons k2 rest ih =>
    intro w a h1 h2 h3 h4
    rw [List.foldl_cons]
    obtain ⟨g1, g2, g3, g4⟩ :=
      patchStepO_preserves_inv source k id lf w0len hsrc hidlt w a k2 h1 h2 h3 h4
    have := ih (patchStepO source (w, a) k2).1 (patchStepO source (w, a) k2).2 g1 g2 g3 g4
    simpa using this

theorem patchStepO_nodeAt {V : Type} [DecidableEq V] [Inhabited V]
    (source : List (String × V)) (k : String) (id : Nat) (v : V)
    (hsrc : lookupSrc source k = some v)
    (w : CWorld V) (a : ObjState V) (k2 : String)
    (hcomp : lookupComp a.comps k = some (Comp.node id)) :
    lookupComp (patchStepO source (w, a) k2).2.comps k = some (Comp.node id) := by
  by_cases hk : k2 = k
  · subst hk
    have hstep : (patchStepO source (w, a) k2).2 = a := by
      simp only [patchStepO, hsrc, patchComponentO, hcomp, leafPatch]
    rw [hstep]
    exact hcomp
  · cases hsv : lookupSrc source k2 with
    | some v2 =>
      have hstep : patchStepO source (w, a) k2 = patchComponentO w a k2 v2 := by
        simp only [patchStepO, hsv]
      rw [hstep]
      cases hc : lookupComp a.comps k2 with
      | some c =>
        cases c with
        | node id2 =>
          have : (patchComponentO w a k2 v2).2 = a := by
            simp only [patchComponentO, hc]
          rw [this]; exact hcomp
        | raw vv =>
          have : (patchComponentO w a k2 v2).2.comps
              = setCompO a.comps k2 (Comp.node w.leaves.length) := by
            simp only [patchComponentO, hc, allocLeaf]
          rw [this, lookupComp_setCompO_ne _ _ _ _ hk]; exact hcomp
      | none =>
        have : (patchComponentO w a k2 v2).2.comps
            = setCompO a.comps k2 (Comp.node w.leaves.length) := by
          simp only [patchComponentO, hc, allocLeaf]
        rw [this, lookupComp_setCompO_ne _ _ _ _ hk]; exact hcomp
    | none =>
      have hstep : (patchStepO source (w, a) k2).2 = doRemoveO a k2 := by
        simp only [patchStepO, hsv]
      rw [hstep]
      unfold doRemoveO
      split
      · show lookupComp (setCompO a.comps k2 (Comp.raw default)) k = _
        rw [lookupComp_setCompO_ne _ _ _ _ hk]; exact hcomp
      · exact hcomp

theorem patchFold_nodeAt {V : Type} [DecidableEq V] [Inhabited V]
    (source : List (String × V)) (k : String) (id : Nat) (v : V)
    (hsrc : lookupSrc source k = some v) :
    ∀ (keys : List String) (w : CWorld V) (a : ObjState V),
      lookupComp a.comps k = some (Comp.node id) →
      lookupComp (keys.foldl (patchStepO source) (w, a)).2.comps k
        = some (Comp.node id) := by
  intro keys
  induction keys with
  | nil => intro w a h; exact h
  | cons k2 rest ih =>
    intro w a h
    rw [List.foldl_cons]
    have hstep := patchStepO_nodeAt source k id v hsrc w a k2 h
    have := ih (patchStepO source (w, a) k2).1 (patchStepO source (w, a) k2).2 hstep
    simpa using this

theorem spliceA_single_replace {V : Type} [DecidableEq V] [Inhabited V]
    (w : CWorld V) (a : ArrState V) (i : Nat) (id : Nat) (v : V)
    (hc : a.comps[i]? = some (Comp.node id)) :
    spliceA w a (i : Int) 1 [v] = (leafPatch w id v, commitA a) := by
  have hi : i < a.comps.length := by
    by_contra hcon
    rw [List.getElem?_eq_none (by omega)] at hc
    simp at hc
  have h1 : normalizeRangeStart (a.comps.length : Int) i = (i : Int) := by
    unfold normalizeRangeStart mirrorIndex
    have hnn : ¬ ((i : Int) < 0) := by omega
    rw [if_neg hnn]
    omega
  have h2 : normalizeRangeLength (a.comps.length : Int) 1 (i : Int) = 1 := by
    simp only [normalizeRangeLength, normalizeRangeEnd, normalizeRangeStart, mirrorIndex]
    split_ifs <;> omega
  have h3 : ((i : Int)).toNat = i := Int.toNat_natCast i
  have h4 : patchRunA w a i (List.take (1 : Int).toNat [v]) = (leafPatch w id v, a) := by
    show patchRunA w a i [v] = (leafPatch w id v, a)
    unfold patchRunA
    have : patchComponentA w a i v = (leafPatch w id v, a) := by
      simp only [patchComponentA, hc]
    rw [this]
    rfl
  have h5 : doSpliceA (leafPatch w id v) a (i + (List.take (1 : Int).toNat [v]).length)
      ((1 : Int) - (List.take (1 : Int).toNat [v]).length) (List.drop (1 : Int).toNat [v])
      = (leafPatch w id v, a) := by
    show doSpliceA (leafPatch w id v) a (i + 1) 0 [] = _
    unfold doSpliceA
    simp
  simp only [spliceA, h1, h2, h3, h4, h5]

/-- Claim C1: for container nodes (object and array variants) and structural
updates (`patch`, `setProperty`/`assign`, and replacement of aligned elements
in `splice`): when the component at a key/index already holds a reactive
node, the update is routed through that existing node's `patch` rather than
replacing it — the child node id at that key/index is the same before and
after the operation — and a derivative subscribed only to that child (an
observer of that leaf) is not notified when only unrelated sibling components
change: the child leaf, including its notification count, is untouched when
its own portion of the source is unchanged. -/
theorem C1_structural_update_preserves_child_nodes {V : Type} [DecidableEq V] [Inhabited V] :
    (∀ (w : CWorld V) (a : ObjState V) (source : List (String × V)) (k : String)
        (id : Nat) (v : V),
      lookupComp a.comps k = some (Comp.node id) →
      lookupSrc source k = some v →
      lookupComp (patchO w a source).2.comps k = some (Comp.node id)) ∧
    (∀ (w : CWorld V) (a : ObjState V) (source : List (String × V)) (k : String)
        (id : Nat) (lf : LeafNode V),
      lookupComp a.comps k = some (Comp.node id) →
      w.leaves[id]? = some lf →
      lookupSrc source k = some lf.value →
      (∀ q ∈ a.comps, q.2 = Comp.node id → q.1 = k) →
      (patchO w a source).1.leaves[id]? = some lf) ∧
    (∀ (w : CWorld V) (a : ObjState V) (k k2 : String) (id : Nat) (lf : LeafNode V)
        (v2 : V),
      lookupComp a.comps k = some (Comp.node id) →
      w.leaves[id]? = some lf →
      ¬ k2 = k →
      (∀ q ∈ a.comps, q.2 = Comp.node id → q.1 = k) →
      lookupComp (assignO w a k2 v2).2.comps k = some (Comp.node id) ∧
      (assignO w a k2 v2).1.leaves[id]? = some lf) ∧
    (∀ (w : CWorld V) (a : ArrState V) (i : Nat) (id : Nat) (v : V),
      a.comps[i]? = some (Comp.node id) →
      spliceA w a (i : Int) 1 [v] = (leafPatch w id v, commitA a)) := by
  refine ⟨?_, ?_, ?_, ?_⟩
  · intro w a source k id v hk hv
    have hfold := patchFold_nodeAt source k id v hv (patchKeysO a source) w a hk
    have hproj : (patchO w a source).2
        = commitO ((patchKeysO a source).foldl (patchStepO source) (w, a)).2 := rfl
    rw [hproj, commitO_comps]
    exact hfold
  · intro w a source k id lf hk hleaf hv halias
    have hidlt : id < w.leaves.length := by
      by_contra hcon
      rw [List.getElem?_eq_none (by omega)] at hleaf
      simp at hleaf
    have hfold := patchFold_inv source k id lf w.leaves.length hv hidlt
      (patchKeysO a source) w a le_rfl hleaf hk halias
    have hproj : (patchO w a source).1
        = ((patchKeysO a source).foldl (patchStepO source) (w, a)).1 := rfl
    rw [hproj]
    exact hfold.2.1
  · intro w a k k2 id lf v2 hk hleaf hne halias
    have hidlt : id < w.leaves.length := by
      by_contra hcon
      rw [List.getElem?_eq_none (by omega)] at hleaf
      simp at hleaf
    obtain ⟨g1, g2, g3, g4⟩ := patchComponentO_preserves w a k k2 id lf v2
      w.leaves.length hne hidlt le_rfl hleaf hk halias
    have hproj2 : (assignO w a k2 v2).2 = commitO (patchComponentO w a k2 v2).2 := rfl
    have hproj1 : (assignO w a k2 v2).1 = (patchComponentO w a k2 v2).1 := rfl
    rw [hproj2, commitO_comps, hproj1]
    exact ⟨g3, g2⟩
  · intro w a i id v hc
    exact spliceA_single_replace w a i id v hc

/-- Witness for C1: an object with children `"a"` (node 0, value 10) and
`"b"` (node 1, value 20); patching with a source that keeps `"a"` at 10 and
changes `"b"` to 99, assigning to the sibling `"b"` alone, and the array
replacement `splice(2, 1, [77])` on the length-5 example, all preserve the
child node and leave its leaf untouched. -/
theorem C1_witness :
    lookupComp (patchO (⟨[⟨10, 0⟩, ⟨20, 0⟩]⟩ : CWorld Int)
        ⟨[("a", Comp.node 0), ("b", Comp.node 1)], false, 0⟩
        [("a", 10), ("b", 99)]).2.comps "a" = some (Comp.node 0) ∧
    (patchO (⟨[⟨10, 0⟩, ⟨20, 0⟩]⟩ : CWorld Int)
        ⟨[("a", Comp.node 0), ("b", Comp.node 1)], false, 0⟩
        [("a", 10), ("b", 99)]).1.leaves[0]? = some ⟨10, 0⟩ ∧
    lookupComp (assignO (⟨[⟨10, 0⟩, ⟨20, 0⟩]⟩ : CWorld Int)
        ⟨[("a", Comp.node 0), ("b", Comp.node 1)], false, 0⟩
        "b" 99).2.comps "a" = some (Comp.node 0) ∧
    (assignO (⟨[⟨10, 0⟩, ⟨20, 0⟩]⟩ : CWorld Int)
        ⟨[("a", Comp.node 0), ("b", Comp.node 1)], false, 0⟩
        "b" 99).1.leaves[0]? = some ⟨10, 0⟩ ∧
    spliceA exampleWorld5 exampleArr5 (2 : Nat) 1 [77]
      = (leafPatch exampleWorld5 2 77, commitA exampleArr5) := by
  have h := @C1_structural_update_preserves_child_nodes Int _ _
  have h1 := h.1 ⟨[⟨10, 0⟩, ⟨20, 0⟩]⟩ ⟨[("a", Comp.node 0), ("b", Comp.node 1)], false, 0⟩
    [("a", 10), ("b", 99)] "a" 0 10 (by decide) (by decide)
  have h2 := h.2.1 ⟨[⟨10, 0⟩, ⟨20, 0⟩]⟩ ⟨[("a", Comp.node 0), ("b", Comp.node 1)], false, 0⟩
    [("a", 10), ("b", 99)] "a" 0 ⟨10, 0⟩ (by decide) (by decide) (by decide) (by decide)
  have h3 := h.2.2.1 ⟨[⟨10, 0⟩, ⟨20, 0⟩]⟩ ⟨[("a", Comp.node 0), ("b", Comp.node 1)], false, 0⟩
    "a" "b" 0 ⟨10, 0⟩ 99 (by decide) (by decide) (by decide) (by decide)
  have h4 := h.2.2.2 exampleWorld5 exampleArr5 2 2 77 (by decide)
  exact ⟨h1, h2, h3.1, h3.2, h4⟩

end Toolish
